import Mathlib

/-!
Verification of the modal text editor in `src/main.rs`.

The editor state (`Editor`) and every key-driven operation are embedded
shallowly from the Rust source.  Rust `String`s are modelled as `List Char`
together with their UTF-8 byte structure: the source manipulates lines with
`String::insert`, `String::remove`, `String::split_off` and `String::len`,
all of which address *bytes* and panic when the index is out of range or not
a character boundary.  A panicking operation is modelled as `none`.
Display width (the `unicode_width` crate) is modelled by `charWidth`.
-/

namespace TextEditor

/-- Display width of a character, modelled from the external `unicode_width`
crate used by the source (`UnicodeWidthStr::width` sums the per-character
widths, counting control characters as 0): combining marks and zero-width
format characters occupy 0 columns, East Asian Wide and Fullwidth ranges
occupy 2 columns, and every other character occupies 1 column.  The table
covers the ranges relevant to this development. -/
def charWidth (c : Char) : Nat :=
  let n := c.toNat
  if n < 0x20 ∨ n = 0x7f then 0
  else if n < 0x7f then 1
  else if 0x80 ≤ n ∧ n ≤ 0x9f then 0
  else if 0x300 ≤ n ∧ n ≤ 0x36f then 0
  else if 0x200b ≤ n ∧ n ≤ 0x200f then 0
  else if 0x1100 ≤ n ∧ n ≤ 0x115f then 2
  else if 0x2e80 ≤ n ∧ n ≤ 0x303e then 2
  else if 0x3041 ≤ n ∧ n ≤ 0x33ff then 2
  else if 0x3400 ≤ n ∧ n ≤ 0x4dbf then 2
  else if 0x4e00 ≤ n ∧ n ≤ 0x9fff then 2
  else if 0xac00 ≤ n ∧ n ≤ 0xd7a3 then 2
  else if 0xf900 ≤ n ∧ n ≤ 0xfaff then 2
  else if 0xfe30 ≤ n ∧ n ≤ 0xfe4f then 2
  else if 0xff00 ≤ n ∧ n ≤ 0xff60 then 2
  else if 0xffe0 ≤ n ∧ n ≤ 0xffe6 then 2
  else if 0x20000 ≤ n ∧ n ≤ 0x3fffd then 2
  else 1

/-- Display width of a line (`UnicodeWidthStr::width`, i.e. `line.width()`
in `move_cursor_right/up/down`). -/
def lineWidth (l : List Char) : Nat := (l.map charWidth).sum

/-- UTF-8 byte length of a line (Rust `String::len`). -/
def byteLen (l : List Char) : Nat := (l.map Char.utf8Size).sum

/-- Split a line at a byte offset (the boundary computation shared by Rust
`String::insert`, `String::remove` and `String::split_off`): returns the two
halves when the offset is a character boundary not exceeding the byte
length, and `none` (a Rust panic) otherwise. -/
def byteSplit : List Char → Nat → Option (List Char × List Char)
  | l, 0 => some ([], l)
  | [], _ + 1 => none
  | c :: cs, b + 1 =>
    if c.utf8Size ≤ b + 1 then
      (byteSplit cs (b + 1 - c.utf8Size)).map (fun p => (c :: p.1, p.2))
    else none

/-- Rust `String::insert(b, c)`: insert `c` at byte offset `b`; `none` when
the offset is not a character boundary or exceeds the length (panic). -/
def insertAt (l : List Char) (b : Nat) (c : Char) : Option (List Char) :=
  (byteSplit l b).map (fun p => p.1 ++ c :: p.2)

/-- Rust `String::remove(b)`: remove the character starting at byte offset
`b`; `none` when `b` is not the start of a character (panic). -/
def removeAt (l : List Char) (b : Nat) : Option (List Char) :=
  match byteSplit l b with
  | some (x, _ :: y) => some (x ++ y)
  | _ => none

/-- The two editing modes (`enum Mode` in the source). -/
inductive Mode where
  | Normal
  | Insert
deriving DecidableEq, Repr

/-- Abstract key events, as classified by the source's dispatch (`KeyCode`):
a printable character, escape, enter, backspace, or anything else. -/
inductive KeyCode where
  | char (c : Char)
  | esc
  | enter
  | backspace
  | other
deriving DecidableEq, Repr

/-- The editor session state (`struct Editor`): line buffer, cursor column
(`cursor_x`, a byte/column offset), cursor row (`cursor_y`), mode and the
termination flag (`quit`). -/
structure Editor where
  content : List (List Char)
  cursor_x : Nat
  cursor_y : Nat
  mode : Mode
  quit : Bool
deriving DecidableEq, Repr

/-- `Editor::new`: one empty line, cursor at the origin, Normal mode. -/
def Editor.new : Editor :=
  { content := [[]], cursor_x := 0, cursor_y := 0, mode := Mode.Normal, quit := false }

/-- The line under the cursor (used only to state properties). -/
def currentLine (e : Editor) : List Char := e.content.getD e.cursor_y []

/-- `Editor::move_cursor_left`. -/
def move_cursor_left (e : Editor) : Editor :=
  if e.cursor_x > 0 then { e with cursor_x := e.cursor_x - 1 } else e

/-- `Editor::move_cursor_right`.  Indexing `self.content[self.cursor_y]`
panics (`none`) when the row is out of range. -/
def move_cursor_right (e : Editor) : Option Editor :=
  match e.content[e.cursor_y]? with
  | none => none
  | some line =>
    some (if e.cursor_x < lineWidth line then { e with cursor_x := e.cursor_x + 1 } else e)

/-- `Editor::move_cursor_up`. -/
def move_cursor_up (e : Editor) : Option Editor :=
  if e.cursor_y > 0 then
    match e.content[e.cursor_y - 1]? with
    | none => none
    | some line =>
      some { e with cursor_y := e.cursor_y - 1,
                    cursor_x := if e.cursor_x > lineWidth line then lineWidth line
                                else e.cursor_x }
  else some e

/-- `Editor::move_cursor_down`. -/
def move_cursor_down (e : Editor) : Option Editor :=
  if e.cursor_y < e.content.length - 1 then
    match e.content[e.cursor_y + 1]? with
    | none => none
    | some line =>
      some { e with cursor_y := e.cursor_y + 1,
                    cursor_x := if e.cursor_x > lineWidth line then lineWidth line
                                else e.cursor_x }
  else some e

/-- `Editor::insert_char`: `line.insert(self.cursor_x, c)` then
`self.cursor_x += 1`. -/
def insert_char (e : Editor) (c : Char) : Option Editor :=
  match e.content[e.cursor_y]? with
  | none => none
  | some line =>
    match insertAt line e.cursor_x c with
    | none => none
    | some line2 =>
      some { e with content := e.content.set e.cursor_y line2,
                    cursor_x := e.cursor_x + 1 }

/-- `Editor::delete_char` (backspace). -/
def delete_char (e : Editor) : Option Editor :=
  match e.content[e.cursor_y]? with
  | none => none
  | some line =>
    if e.cursor_x > 0 then
      match removeAt line (e.cursor_x - 1) with
      | none => none
      | some line2 =>
        some { e with content := e.content.set e.cursor_y line2,
                      cursor_x := e.cursor_x - 1 }
    else if e.cursor_y > 0 then
      match (e.content.eraseIdx e.cursor_y)[e.cursor_y - 1]? with
      | none => none
      | some prev =>
        some { e with content := (e.content.eraseIdx e.cursor_y).set
                                   (e.cursor_y - 1) (prev ++ line),
                      cursor_x := byteLen prev,
                      cursor_y := e.cursor_y - 1 }
    else some e

/-- `Editor::insert_newline`: `current_line.split_off(self.cursor_x)`, the
tail is inserted as a new line after the current row, and the cursor moves
to the start of that new line. -/
def insert_newline (e : Editor) : Option Editor :=
  match e.content[e.cursor_y]? with
  | none => none
  | some line =>
    match byteSplit line e.cursor_x with
    | none => none
    | some (before, after) =>
      some { e with content := (e.content.set e.cursor_y before).insertIdx
                                 (e.cursor_y + 1) after,
                    cursor_x := 0,
                    cursor_y := e.cursor_y + 1 }

/-- `Editor::handle_normal_mode`: dispatch a key in Normal mode. -/
def handle_normal_mode (e : Editor) (k : KeyCode) : Option Editor :=
  match k with
  | KeyCode.char c =>
    if c = 'q' then some { e with quit := true }
    else if c = 'i' then some { e with mode := Mode.Insert }
    else if c = 'h' then some (move_cursor_left e)
    else if c = 'j' then move_cursor_down e
    else if c = 'k' then move_cursor_up e
    else if c = 'l' then move_cursor_right e
    else some e
  | _ => some e

/-- `Editor::handle_insert_mode`: dispatch a key in Insert mode. -/
def handle_insert_mode (e : Editor) (k : KeyCode) : Option Editor :=
  match k with
  | KeyCode.esc => some { e with mode := Mode.Normal }
  | KeyCode.char c => insert_char e c
  | KeyCode.backspace => delete_char e
  | KeyCode.enter => insert_newline e
  | KeyCode.other => some e

/-- `Editor::process_keypress`: route one key event by the current mode. -/
def process_keypress (e : Editor) (k : KeyCode) : Option Editor :=
  match e.mode with
  | Mode.Normal => handle_normal_mode e k
  | Mode.Insert => handle_insert_mode e k

/-- Iterate `process_keypress` over a key sequence (the pure content of the
`Editor::run` loop; rendering is a pure read and is omitted). -/
def run (e : Editor) : List KeyCode → Option Editor
  | [] => some e
  | k :: ks =>
    match process_keypress e k with
    | none => none
    | some e2 => run e2 ks

/-- The §3 state-validity invariant of the specification: a non-empty
buffer, a row inside it, and a column at most the display width of the
current line. -/
def editorInv (e : Editor) : Prop :=
  e.content ≠ [] ∧ e.cursor_y < e.content.length ∧
    e.cursor_x ≤ lineWidth (currentLine e)

instance (e : Editor) : Decidable (editorInv e) := by
  unfold editorInv; infer_instance

/-- A character that occupies one byte and one display column (plain
printable ASCII); on lines of such characters the byte index, the character
index and the display column coincide. -/
def charOK (c : Char) : Prop := c.utf8Size = 1 ∧ charWidth c = 1

instance (c : Char) : Decidable (charOK c) := by
  unfold charOK; infer_instance

/-- A line all of whose characters are single-byte and width 1. -/
def lineOK (l : List Char) : Prop := ∀ c ∈ l, charOK c

instance (l : List Char) : Decidable (lineOK l) := by
  unfold lineOK; infer_instance

/-- A key event that is either a non-character key or a single-byte,
width-1 character. -/
def keyOK : KeyCode → Prop
  | KeyCode.char c => charOK c
  | _ => True

instance (k : KeyCode) : Decidable (keyOK k) :=
  match k with
  | KeyCode.char c => inferInstanceAs (Decidable (charOK c))
  | KeyCode.esc => isTrue True.intro
  | KeyCode.enter => isTrue True.intro
  | KeyCode.backspace => isTrue True.intro
  | KeyCode.other => isTrue True.intro

/-- The strengthened invariant: the state-validity invariant together with
all buffer lines consisting of single-byte width-1 characters. -/
def asciiInv (e : Editor) : Prop :=
  (∀ l ∈ e.content, lineOK l) ∧ editorInv e

instance (e : Editor) : Decidable (asciiInv e) := by
  unfold asciiInv; infer_instance

/-! ### Line-level lemmas -/

theorem lineWidth_nil : lineWidth [] = 0 := rfl

theorem lineWidth_cons (c : Char) (l : List Char) :
    lineWidth (c :: l) = charWidth c + lineWidth l := by
  simp [lineWidth]

theorem lineWidth_append (a b : List Char) :
    lineWidth (a ++ b) = lineWidth a + lineWidth b := by
  simp [lineWidth]

theorem byteLen_append (a b : List Char) :
    byteLen (a ++ b) = byteLen a + byteLen b := by
  simp [byteLen]

theorem lineWidth_eq_length {l : List Char} (h : lineOK l) :
    lineWidth l = l.length := by
  induction l with
  | nil => rfl
  | cons c cs ih =>
    have hc : charOK c := h c (by simp)
    have hcs : lineOK cs := fun x hx => h x (by simp [hx])
    simp [lineWidth_cons, hc.2, ih hcs, Nat.add_comm]

theorem byteLen_eq_length {l : List Char} (h : lineOK l) :
    byteLen l = l.length := by
  induction l with
  | nil => rfl
  | cons c cs ih =>
    have hc : charOK c := h c (by simp)
    have hcs : lineOK cs := fun x hx => h x (by simp [hx])
    simp [byteLen, hc.1] at *
    simpa [Nat.add_comm] using ih hcs

theorem lineOK_append {a b : List Char} (ha : lineOK a) (hb : lineOK b) :
    lineOK (a ++ b) := by
  intro c hc
  rcases List.mem_append.mp hc with h | h
  · exact ha c h
  · exact hb c h

theorem lineOK_take {l : List Char} (n : Nat) (h : lineOK l) :
    lineOK (l.take n) :=
  fun c hc => h c (List.mem_of_mem_take hc)

theorem lineOK_drop {l : List Char} (n : Nat) (h : lineOK l) :
    lineOK (l.drop n) :=
  fun c hc => h c (List.mem_of_mem_drop hc)

theorem lineOK_eraseIdx {l : List Char} (n : Nat) (h : lineOK l) :
    lineOK (l.eraseIdx n) :=
  fun c hc => h c (List.eraseIdx_subset l n hc)

/-- On a line of single-byte characters, splitting at byte offset `n ≤`
length always succeeds and is the `take`/`drop` character split. -/
theorem byteSplit_of_lineOK :
    ∀ (l : List Char) (n : Nat), lineOK l → n ≤ l.length →
      byteSplit l n = some (l.take n, l.drop n)
  | _, 0, _, _ => by simp [byteSplit]
  | [], n + 1, _, h => by simp at h
  | c :: cs, n + 1, hok, h => by
    have hc : charOK c := hok c (by simp)
    have hcs : lineOK cs := fun x hx => hok x (by simp [hx])
    have hn : n ≤ cs.length := by simpa using h
    simp [byteSplit, hc.1, byteSplit_of_lineOK cs n hcs hn]

/-- A successful byte split concatenates back to the original line, and its
first half has byte length exactly the split offset. -/
theorem byteSplit_append :
    ∀ (l : List Char) (n : Nat) (x y : List Char),
      byteSplit l n = some (x, y) → x ++ y = l ∧ byteLen x = n
  | l, 0, x, y, h => by
    simp [byteSplit] at h
    obtain ⟨rfl, rfl⟩ := h
    simp [byteLen]
  | [], n + 1, x, y, h => by simp [byteSplit] at h
  | c :: cs, n + 1, x, y, h => by
    rw [byteSplit] at h
    by_cases hc : c.utf8Size ≤ n + 1
    · rw [if_pos hc] at h
      rcases hq : byteSplit cs (n + 1 - c.utf8Size) with _ | ⟨q1, q2⟩
      · rw [hq] at h; simp at h
      · rw [hq] at h
        simp at h
        have ih := byteSplit_append cs (n + 1 - c.utf8Size) q1 q2 hq
        obtain ⟨h1, h2⟩ := h
        subst h1; subst h2
        refine ⟨by simp [ih.1], ?_⟩
        have hlen := ih.2
        simp [byteLen] at hlen ⊢
        omega
    · rw [if_neg hc] at h
      cases h

/-! ### Pointwise descriptions of each operation -/

theorem getElem?_currentLine {e : Editor} (h : e.cursor_y < e.content.length) :
    e.content[e.cursor_y]? = some (currentLine e) := by
  simp [currentLine, List.getElem?_eq_getElem h]

theorem move_cursor_right_eq (e : Editor) (h : e.cursor_y < e.content.length) :
    move_cursor_right e =
      some (if e.cursor_x < lineWidth (currentLine e) then
              { e with cursor_x := e.cursor_x + 1 }
            else e) := by
  unfold move_cursor_right
  rw [getElem?_currentLine h]

theorem move_cursor_up_eq (e : Editor) (h : e.cursor_y < e.content.length) :
    move_cursor_up e =
      some (if e.cursor_y = 0 then e
            else
              { e with cursor_y := e.cursor_y - 1,
                       cursor_x :=
                         if e.cursor_x > lineWidth (e.content.getD (e.cursor_y - 1) [])
                         then lineWidth (e.content.getD (e.cursor_y - 1) [])
                         else e.cursor_x }) := by
  unfold move_cursor_up
  by_cases hy : e.cursor_y = 0
  · rw [if_neg (by omega), if_pos hy]
  · have hlt : e.cursor_y - 1 < e.content.length := by omega
    rw [if_pos (by omega), List.getElem?_eq_getElem hlt, if_neg hy]
    simp [List.getD_eq_getElem?_getD, List.getElem?_eq_getElem hlt]

theorem move_cursor_down_eq (e : Editor) :
    move_cursor_down e =
      some (if e.cursor_y < e.content.length - 1 then
              { e with cursor_y := e.cursor_y + 1,
                       cursor_x :=
                         if e.cursor_x > lineWidth (e.content.getD (e.cursor_y + 1) [])
                         then lineWidth (e.content.getD (e.cursor_y + 1) [])
                         else e.cursor_x }
            else e) := by
  unfold move_cursor_down
  by_cases hy : e.cursor_y < e.content.length - 1
  · have hlt : e.cursor_y + 1 < e.content.length := by omega
    rw [if_pos hy, List.getElem?_eq_getElem hlt]
    simp [hy, List.getD_eq_getElem?_getD, List.getElem?_eq_getElem hlt]
  · simp [hy]

theorem insert_char_eq (e : Editor) (c : Char) (x y : List Char)
    (h : e.cursor_y < e.content.length)
    (hs : byteSplit (currentLine e) e.cursor_x = some (x, y)) :
    insert_char e c =
      some { e with content := e.content.set e.cursor_y (x ++ c :: y),
                    cursor_x := e.cursor_x + 1 } := by
  unfold insert_char insertAt
  rw [getElem?_currentLine h]
  simp [hs]

theorem insert_newline_eq (e : Editor) (x y : List Char)
    (h : e.cursor_y < e.content.length)
    (hs : byteSplit (currentLine e) e.cursor_x = some (x, y)) :
    insert_newline e =
      some { e with content := (e.content.set e.cursor_y x).insertIdx
                                 (e.cursor_y + 1) y,
                    cursor_x := 0,
                    cursor_y := e.cursor_y + 1 } := by
  unfold insert_newline
  rw [getElem?_currentLine h]
  simp [hs]

theorem delete_char_eq_remove (e : Editor) (x : List Char) (c : Char)
    (y : List Char) (h : e.cursor_y < e.content.length) (hx : 0 < e.cursor_x)
    (hs : byteSplit (currentLine e) (e.cursor_x - 1) = some (x, c :: y)) :
    delete_char e =
      some { e with content := e.content.set e.cursor_y (x ++ y),
                    cursor_x := e.cursor_x - 1 } := by
  unfold delete_char removeAt
  rw [getElem?_currentLine h]
  simp only [gt_iff_lt, hx, if_pos, hs]

theorem delete_char_eq_join (e : Editor) (h : e.cursor_y < e.content.length)
    (hx : e.cursor_x = 0) (hy : 0 < e.cursor_y) :
    delete_char e =
      some { e with
               content := (e.content.eraseIdx e.cursor_y).set (e.cursor_y - 1)
                            (e.content.getD (e.cursor_y - 1) [] ++ currentLine e),
               cursor_x := byteLen (e.content.getD (e.cursor_y - 1) []),
               cursor_y := e.cursor_y - 1 } := by
  have hprev : (e.content.eraseIdx e.cursor_y)[e.cursor_y - 1]? =
      some (e.content.getD (e.cursor_y - 1) []) := by
    rw [List.getElem?_eraseIdx_of_lt _ _ _ (by omega)]
    have hlt : e.cursor_y - 1 < e.content.length := by omega
    simp [List.getD_eq_getElem?_getD, List.getElem?_eq_getElem hlt]
  unfold delete_char
  rw [getElem?_currentLine h]
  simp only [gt_iff_lt, hx, hprev, hy, if_pos]
  simp [hx]

theorem delete_char_eq_origin (e : Editor) (h : e.cursor_y < e.content.length)
    (hx : e.cursor_x = 0) (hy : e.cursor_y = 0) :
    delete_char e = some e := by
  unfold delete_char
  rw [getElem?_currentLine h]
  simp [hx, hy]

/-! ### Invariant preservation -/

theorem lineOK_cons {c : Char} {l : List Char} (hc : charOK c) (h : lineOK l) :
    lineOK (c :: l) := by
  intro x hx
  rcases List.mem_cons.mp hx with rfl | hx
  · exact hc
  · exact h x hx

theorem currentLine_mem {e : Editor} (h : e.cursor_y < e.content.length) :
    currentLine e ∈ e.content := by
  have : currentLine e = e.content[e.cursor_y] := by
    simp [currentLine, List.getD_eq_getElem?_getD, List.getElem?_eq_getElem h]
  rw [this]
  exact List.getElem_mem h

theorem getD_set_self {α : Type _} (l : List α) (n : Nat) (a d : α)
    (h : n < l.length) : (l.set n a).getD n d = a := by
  simp [List.getD_eq_getElem?_getD, List.getElem?_set_self h]

theorem currentLine_lineOK {e : Editor} (h : asciiInv e) :
    lineOK (currentLine e) :=
  h.1 _ (currentLine_mem h.2.2.1)

theorem cursor_x_le_length {e : Editor} (h : asciiInv e) :
    e.cursor_x ≤ (currentLine e).length := by
  rw [← lineWidth_eq_length (currentLine_lineOK h)]
  exact h.2.2.2

theorem asciiInv_quit (e : Editor) (b : Bool) (h : asciiInv e) :
    asciiInv { e with quit := b } := h

theorem asciiInv_mode (e : Editor) (m : Mode) (h : asciiInv e) :
    asciiInv { e with mode := m } := h

theorem move_left_preserves {e : Editor} (h : asciiInv e) :
    asciiInv (move_cursor_left e) := by
  obtain ⟨hok, h1, h2, h3⟩ := h
  unfold move_cursor_left
  split
  · refine ⟨hok, h1, h2, ?_⟩
    show e.cursor_x - 1 ≤ lineWidth (currentLine e)
    omega
  · exact ⟨hok, h1, h2, h3⟩

theorem move_right_preserves {e : Editor} (h : asciiInv e) :
    ∃ e', move_cursor_right e = some e' ∧ asciiInv e' := by
  obtain ⟨hok, h1, h2, h3⟩ := h
  refine ⟨_, move_cursor_right_eq e h2, ?_⟩
  split
  case isTrue hlt =>
    refine ⟨hok, h1, h2, ?_⟩
    show e.cursor_x + 1 ≤ lineWidth (currentLine e)
    omega
  case isFalse => exact ⟨hok, h1, h2, h3⟩

theorem move_up_preserves {e : Editor} (h : asciiInv e) :
    ∃ e', move_cursor_up e = some e' ∧ asciiInv e' := by
  obtain ⟨hok, h1, h2, h3⟩ := h
  refine ⟨_, move_cursor_up_eq e h2, ?_⟩
  split
  case isTrue => exact ⟨hok, h1, h2, h3⟩
  case isFalse hy =>
    refine ⟨hok, h1, ?_, ?_⟩
    · show e.cursor_y - 1 < e.content.length
      omega
    · show (if e.cursor_x > lineWidth (e.content.getD (e.cursor_y - 1) [])
            then lineWidth (e.content.getD (e.cursor_y - 1) [])
            else e.cursor_x) ≤ lineWidth (e.content.getD (e.cursor_y - 1) [])
      split <;> omega

theorem move_down_preserves {e : Editor} (h : asciiInv e) :
    ∃ e', move_cursor_down e = some e' ∧ asciiInv e' := by
  obtain ⟨hok, h1, h2, h3⟩ := h
  refine ⟨_, move_cursor_down_eq e, ?_⟩
  split
  case isTrue hy =>
    refine ⟨hok, h1, ?_, ?_⟩
    · show e.cursor_y + 1 < e.content.length
      omega
    · show (if e.cursor_x > lineWidth (e.content.getD (e.cursor_y + 1) [])
            then lineWidth (e.content.getD (e.cursor_y + 1) [])
            else e.cursor_x) ≤ lineWidth (e.content.getD (e.cursor_y + 1) [])
      split <;> omega
  case isFalse => exact ⟨hok, h1, h2, h3⟩

/-- On a buffer of single-byte width-1 lines, inserting any character is the
take/drop character split at the cursor column. -/
theorem insert_char_ascii (e : Editor) (c : Char) (h : asciiInv e) :
    insert_char e c =
      some { e with
               content := e.content.set e.cursor_y
                 ((currentLine e).take e.cursor_x ++
                   c :: (currentLine e).drop e.cursor_x),
               cursor_x := e.cursor_x + 1 } :=
  insert_char_eq e c _ _ h.2.2.1
    (byteSplit_of_lineOK _ _ (currentLine_lineOK h) (cursor_x_le_length h))

theorem insert_preserves (e : Editor) (c : Char) (hc : charOK c)
    (h : asciiInv e) :
    ∃ e', insert_char e c = some e' ∧ asciiInv e' := by
  refine ⟨_, insert_char_ascii e c h, ?_⟩
  obtain ⟨hok, h1, h2, h3⟩ := h
  have hlok : lineOK (currentLine e) := currentLine_lineOK ⟨hok, h1, h2, h3⟩
  have hx : e.cursor_x ≤ (currentLine e).length :=
    cursor_x_le_length ⟨hok, h1, h2, h3⟩
  have hnew : lineOK ((currentLine e).take e.cursor_x ++
      c :: (currentLine e).drop e.cursor_x) :=
    lineOK_append (lineOK_take _ hlok) (lineOK_cons hc (lineOK_drop _ hlok))
  refine ⟨?_, ?_, ?_, ?_⟩
  · intro l hl
    rcases List.mem_or_eq_of_mem_set hl with hl | rfl
    · exact hok l hl
    · exact hnew
  · show e.content.set e.cursor_y _ ≠ []
    refine List.ne_nil_of_length_pos ?_
    rw [List.length_set]
    exact List.length_pos.mpr h1
  · show e.cursor_y < (e.content.set e.cursor_y _).length
    rw [List.length_set]; exact h2
  · show e.cursor_x + 1 ≤ lineWidth ((e.content.set e.cursor_y _).getD e.cursor_y [])
    rw [getD_set_self _ _ _ _ h2, lineWidth_eq_length hnew]
    simp
    omega

theorem delete_preserves (e : Editor) (h : asciiInv e) :
    ∃ e', delete_char e = some e' ∧ asciiInv e' := by
  obtain ⟨hok, h1, h2, h3⟩ := h
  have hlok : lineOK (currentLine e) := currentLine_lineOK ⟨hok, h1, h2, h3⟩
  have hx : e.cursor_x ≤ (currentLine e).length :=
    cursor_x_le_length ⟨hok, h1, h2, h3⟩
  by_cases hpos : 0 < e.cursor_x
  · -- remove the character before the cursor
    have hx1 : e.cursor_x - 1 < (currentLine e).length := by omega
    have hsplit : byteSplit (currentLine e) (e.cursor_x - 1) =
        some ((currentLine e).take (e.cursor_x - 1),
              (currentLine e)[e.cursor_x - 1] :: (currentLine e).drop e.cursor_x) := by
      rw [byteSplit_of_lineOK _ _ hlok (by omega)]
      rw [List.drop_eq_getElem_cons hx1]
      have : e.cursor_x - 1 + 1 = e.cursor_x := by omega
      rw [this]
    have heff := delete_char_eq_remove e _ _ _ h2 hpos hsplit
    refine ⟨_, heff, ?_⟩
    have hnew : lineOK ((currentLine e).take (e.cursor_x - 1) ++
        (currentLine e).drop e.cursor_x) :=
      lineOK_append (lineOK_take _ hlok) (lineOK_drop _ hlok)
    refine ⟨?_, ?_, ?_, ?_⟩
    · intro l hl
      rcases List.mem_or_eq_of_mem_set hl with hl | rfl
      · exact hok l hl
      · exact hnew
    · refine List.ne_nil_of_length_pos ?_
      rw [List.length_set]
      exact List.length_pos.mpr h1
    · show e.cursor_y < (e.content.set e.cursor_y _).length
      rw [List.length_set]; exact h2
    · show e.cursor_x - 1 ≤ lineWidth ((e.content.set e.cursor_y _).getD e.cursor_y [])
      rw [getD_set_self _ _ _ _ h2, lineWidth_eq_length hnew]
      simp
      omega
  · by_cases hy : 0 < e.cursor_y
    · -- join with the previous line
      have heff := delete_char_eq_join e h2 (by omega) hy
      refine ⟨_, heff, ?_⟩
      have hylt : e.cursor_y - 1 < e.content.length := by omega
      have hprev : e.content.getD (e.cursor_y - 1) [] = e.content[e.cursor_y - 1] := by
        simp [List.getD_eq_getElem?_getD, List.getElem?_eq_getElem hylt]
      have hprevOK : lineOK (e.content.getD (e.cursor_y - 1) []) := by
        rw [hprev]; exact hok _ (List.getElem_mem hylt)
      have hjoinOK : lineOK (e.content.getD (e.cursor_y - 1) [] ++ currentLine e) :=
        lineOK_append hprevOK hlok
      have hlen : (e.content.eraseIdx e.cursor_y).length = e.content.length - 1 :=
        List.length_eraseIdx_of_lt h2
      refine ⟨?_, ?_, ?_, ?_⟩
      · intro l hl
        rcases List.mem_or_eq_of_mem_set hl with hl | rfl
        · exact hok l (List.eraseIdx_subset _ _ hl)
        · exact hjoinOK
      · refine List.ne_nil_of_length_pos ?_
        rw [List.length_set, hlen]
        omega
      · show e.cursor_y - 1 < ((e.content.eraseIdx e.cursor_y).set (e.cursor_y - 1) _).length
        rw [List.length_set, hlen]
        omega
      · show byteLen (e.content.getD (e.cursor_y - 1) []) ≤
          lineWidth (((e.content.eraseIdx e.cursor_y).set (e.cursor_y - 1) _).getD (e.cursor_y - 1) [])
        rw [getD_set_self _ _ _ _ (by rw [hlen]; omega)]
        rw [byteLen_eq_length hprevOK, lineWidth_append,
            lineWidth_eq_length hprevOK]
        omega
    · exact ⟨e, delete_char_eq_origin e h2 (by omega) (by omega),
        hok, h1, h2, h3⟩

theorem newline_preserves (e : Editor) (h : asciiInv e) :
    ∃ e', insert_newline e = some e' ∧ asciiInv e' := by
  obtain ⟨hok, h1, h2, h3⟩ := h
  have hlok : lineOK (currentLine e) := currentLine_lineOK ⟨hok, h1, h2, h3⟩
  have hx : e.cursor_x ≤ (currentLine e).length :=
    cursor_x_le_length ⟨hok, h1, h2, h3⟩
  have heff := insert_newline_eq e _ _ h2 (byteSplit_of_lineOK _ _ hlok hx)
  refine ⟨_, heff, ?_⟩
  have hylen : e.cursor_y + 1 ≤ (e.content.set e.cursor_y ((currentLine e).take e.cursor_x)).length := by
    rw [List.length_set]; omega
  have hlen : ((e.content.set e.cursor_y ((currentLine e).take e.cursor_x)).insertIdx
      (e.cursor_y + 1) ((currentLine e).drop e.cursor_x)).length = e.content.length + 1 := by
    rw [List.length_insertIdx _ _ hylen, List.length_set]
  refine ⟨?_, ?_, ?_, ?_⟩
  · intro l hl
    rcases (List.mem_insertIdx hylen).mp hl with rfl | hl
    · exact lineOK_drop _ hlok
    · rcases List.mem_or_eq_of_mem_set hl with hl | rfl
      · exact hok l hl
      · exact lineOK_take _ hlok
  · refine List.ne_nil_of_length_pos ?_
    rw [hlen]; omega
  · show e.cursor_y + 1 < _
    rw [hlen]; omega
  · show (0 : Nat) ≤ _
    omega

theorem handle_normal_preserves (e : Editor) (k : KeyCode) (h : asciiInv e) :
    ∃ e', handle_normal_mode e k = some e' ∧ asciiInv e' := by
  cases k with
  | esc => exact ⟨e, rfl, h⟩
  | enter => exact ⟨e, rfl, h⟩
  | backspace => exact ⟨e, rfl, h⟩
  | other => exact ⟨e, rfl, h⟩
  | char c =>
    by_cases h1 : c = 'q'
    · exact ⟨{ e with quit := true }, by simp [handle_normal_mode, h1], h⟩
    by_cases h2 : c = 'i'
    · exact ⟨{ e with mode := Mode.Insert },
        by simp [handle_normal_mode, h1, h2], h⟩
    by_cases h3 : c = 'h'
    · exact ⟨move_cursor_left e, by simp [handle_normal_mode, h1, h2, h3],
        move_left_preserves h⟩
    by_cases h4 : c = 'j'
    · obtain ⟨e', he', hi⟩ := move_down_preserves h
      exact ⟨e', by simp [handle_normal_mode, h1, h2, h3, h4]; exact he', hi⟩
    by_cases h5 : c = 'k'
    · obtain ⟨e', he', hi⟩ := move_up_preserves h
      exact ⟨e', by simp [handle_normal_mode, h1, h2, h3, h4, h5]; exact he', hi⟩
    by_cases h6 : c = 'l'
    · obtain ⟨e', he', hi⟩ := move_right_preserves h
      exact ⟨e', by simp [handle_normal_mode, h1, h2, h3, h4, h5, h6]; exact he', hi⟩
    · exact ⟨e, by simp [handle_normal_mode, h1, h2, h3, h4, h5, h6], h⟩

theorem handle_insert_preserves (e : Editor) (k : KeyCode) (h : asciiInv e)
    (hk : keyOK k) :
    ∃ e', handle_insert_mode e k = some e' ∧ asciiInv e' := by
  cases k with
  | esc => exact ⟨{ e with mode := Mode.Normal }, rfl, h⟩
  | enter => exact newline_preserves e h
  | backspace => exact delete_preserves e h
  | other => exact ⟨e, rfl, h⟩
  | char c => exact insert_preserves e c hk h

theorem process_preserves (e : Editor) (k : KeyCode) (h : asciiInv e)
    (hk : keyOK k) :
    ∃ e', process_keypress e k = some e' ∧ asciiInv e' := by
  unfold process_keypress
  cases hm : e.mode
  · exact handle_normal_preserves e k h
  · exact handle_insert_preserves e k h hk

theorem run_preserves :
    ∀ (ks : List KeyCode) (e : Editor), asciiInv e → (∀ k ∈ ks, keyOK k) →
      ∃ e', run e ks = some e' ∧ asciiInv e'
  | [], e, h, _ => ⟨e, rfl, h⟩
  | k :: ks, e, h, hks => by
    obtain ⟨e1, he1, h1⟩ := process_preserves e k h (hks k (by simp))
    obtain ⟨e2, he2, h2⟩ :=
      run_preserves ks e1 h1 (fun x hx => hks x (by simp [hx]))
    refine ⟨e2, ?_, h2⟩
    unfold run
    rw [he1]
    exact he2

theorem run_asciiInv {ks : List KeyCode} {e : Editor}
    (hks : ∀ k ∈ ks, keyOK k) (h : run Editor.new ks = some e) :
    asciiInv e := by
  obtain ⟨e', he', h'⟩ := run_preserves ks Editor.new (by decide) hks
  rw [h] at he'
  cases he'
  exact h'

/-! ### The termination flag is only touched by the quit key -/

theorem quit_move_left (e : Editor) : (move_cursor_left e).quit = e.quit := by
  unfold move_cursor_left
  split <;> rfl

theorem quit_move_right {e e' : Editor} (h : move_cursor_right e = some e') :
    e'.quit = e.quit := by
  unfold move_cursor_right at h
  split at h
  · cases h
  · cases h
    split <;> rfl

theorem quit_move_up {e e' : Editor} (h : move_cursor_up e = some e') :
    e'.quit = e.quit := by
  unfold move_cursor_up at h
  split at h
  · split at h
    · cases h
    · cases h; rfl
  · cases h; rfl

theorem quit_move_down {e e' : Editor} (h : move_cursor_down e = some e') :
    e'.quit = e.quit := by
  unfold move_cursor_down at h
  split at h
  · split at h
    · cases h
    · cases h; rfl
  · cases h; rfl

theorem quit_insert_char {e : Editor} {c : Char} {e' : Editor}
    (h : insert_char e c = some e') : e'.quit = e.quit := by
  unfold insert_char at h
  split at h
  · cases h
  · split at h
    · cases h
    · cases h; rfl

theorem quit_delete_char {e e' : Editor} (h : delete_char e = some e') :
    e'.quit = e.quit := by
  unfold delete_char at h
  split at h
  · cases h
  · split at h
    · split at h
      · cases h
      · cases h; rfl
    · split at h
      · split at h
        · cases h
        · cases h; rfl
      · cases h; rfl

theorem quit_insert_newline {e e' : Editor} (h : insert_newline e = some e') :
    e'.quit = e.quit := by
  unfold insert_newline at h
  split at h
  · cases h
  · split at h
    · cases h
    · cases h; rfl

theorem handle_normal_quit {e e' : Editor} {k : KeyCode}
    (h : handle_normal_mode e k = some e') (hq : e'.quit = true) :
    e.quit = true ∨ k = KeyCode.char 'q' := by
  cases k with
  | esc => cases h; exact Or.inl hq
  | enter => cases h; exact Or.inl hq
  | backspace => cases h; exact Or.inl hq
  | other => cases h; exact Or.inl hq
  | char c =>
    simp only [handle_normal_mode] at h
    by_cases h1 : c = 'q'
    · exact Or.inr (by rw [h1])
    rw [if_neg h1] at h
    by_cases h2 : c = 'i'
    · rw [if_pos h2] at h; cases h; exact Or.inl hq
    rw [if_neg h2] at h
    by_cases h3 : c = 'h'
    · rw [if_pos h3] at h; cases h
      exact Or.inl (by rw [← quit_move_left]; exact hq)
    rw [if_neg h3] at h
    by_cases h4 : c = 'j'
    · rw [if_pos h4] at h
      exact Or.inl (by rw [← quit_move_down h]; exact hq)
    rw [if_neg h4] at h
    by_cases h5 : c = 'k'
    · rw [if_pos h5] at h
      exact Or.inl (by rw [← quit_move_up h]; exact hq)
    rw [if_neg h5] at h
    by_cases h6 : c = 'l'
    · rw [if_pos h6] at h
      exact Or.inl (by rw [← quit_move_right h]; exact hq)
    rw [if_neg h6] at h
    cases h
    exact Or.inl hq

theorem handle_insert_quit {e e' : Editor} {k : KeyCode}
    (h : handle_insert_mode e k = some e') (hq : e'.quit = true) :
    e.quit = true := by
  cases k with
  | esc => cases h; exact hq
  | other => cases h; exact hq
  | char c => rw [← quit_insert_char h]; exact hq
  | backspace => rw [← quit_delete_char h]; exact hq
  | enter => rw [← quit_insert_newline h]; exact hq

theorem process_quit {e e' : Editor} {k : KeyCode}
    (h : process_keypress e k = some e') (hq : e'.quit = true) :
    e.quit = true ∨ (e.mode = Mode.Normal ∧ k = KeyCode.char 'q') := by
  unfold process_keypress at h
  cases hm : e.mode <;> rw [hm] at h
  · have h2 : handle_normal_mode e k = some e' := h
    rcases handle_normal_quit h2 hq with hh | hh
    · exact Or.inl hh
    · exact Or.inr ⟨rfl, hh⟩

  · have h2 : handle_insert_mode e k = some e' := h
    exact Or.inl (handle_insert_quit h2 hq)

/-! ### Claim C1: the state-validity invariant -/

/-- C1 (counterexample): the state-validity invariant fails on the code as
claimed.  From the initial state, entering Insert mode and typing the
zero-width combining character U+0301 reaches (without any panic) a state
whose cursor column is 1 while the display width of its only line is 0. -/
theorem C1_counterexample :
    ∃ e, run Editor.new [KeyCode.char 'i', KeyCode.char (Char.ofNat 0x301)] =
        some e ∧ ¬ e.cursor_x ≤ lineWidth (currentLine e) :=
  ⟨{ content := [[Char.ofNat 0x301]], cursor_x := 1, cursor_y := 0,
     mode := Mode.Insert, quit := false }, by decide, by decide⟩

/-- C1 (amended): in every state reachable from the initial state
(buffer with one empty line, cursor (0,0), mode Normal) by key events whose
characters are all single-byte and of display width 1, the buffer contains
at least one line, the row is a valid buffer index, and the column is at
most the display width of the current line. -/
theorem C1_invariant (ks : List KeyCode) (e : Editor)
    (hks : ∀ k ∈ ks, keyOK k) (h : run Editor.new ks = some e) :
    e.content ≠ [] ∧ e.cursor_y < e.content.length ∧
      e.cursor_x ≤ lineWidth (currentLine e) :=
  (run_asciiInv hks h).2

theorem C1_invariant_witness :
    (∀ k ∈ [KeyCode.char 'i', KeyCode.char 'h', KeyCode.enter], keyOK k) ∧
    run Editor.new [KeyCode.char 'i', KeyCode.char 'h', KeyCode.enter] =
      some { content := [['h'], []], cursor_x := 0, cursor_y := 1,
             mode := Mode.Insert, quit := false } ∧
    (({ content := [['h'], []], cursor_x := 0, cursor_y := 1,
        mode := Mode.Insert, quit := false } : Editor).content ≠ [] ∧
     ({ content := [['h'], []], cursor_x := 0, cursor_y := 1,
        mode := Mode.Insert, quit := false } : Editor).cursor_y <
       ({ content := [['h'], []], cursor_x := 0, cursor_y := 1,
          mode := Mode.Insert, quit := false } : Editor).content.length ∧
     ({ content := [['h'], []], cursor_x := 0, cursor_y := 1,
        mode := Mode.Insert, quit := false } : Editor).cursor_x ≤
       lineWidth (currentLine ({ content := [['h'], []], cursor_x := 0,
                                 cursor_y := 1, mode := Mode.Insert,
                                 quit := false } : Editor))) :=
  ⟨by decide, by decide,
    C1_invariant [KeyCode.char 'i', KeyCode.char 'h', KeyCode.enter] _
      (by decide) (by decide)⟩

/-! ### Claim C2: totality of the operations -/

/-- C2 (counterexample): totality fails as claimed.  The state with the
single line "é", cursor (1,0) and Insert mode satisfies the §3 invariants
(the display width of "é" is 1, so column 1 is admissible), yet inserting
the character 'a' panics, because byte offset 1 falls inside the 2-byte
character 'é'. -/
theorem C2_counterexample :
    editorInv { content := [['é']], cursor_x := 1, cursor_y := 0,
                mode := Mode.Insert, quit := false } ∧
    insert_char { content := [['é']], cursor_x := 1, cursor_y := 0,
                  mode := Mode.Insert, quit := false } 'a' = none :=
  ⟨by decide, by decide⟩

/-- C2 (amended): on states satisfying the §3 invariants whose lines
consist of single-byte width-1 characters, every buffer/cursor operation
terminates normally and cannot fail; `move_cursor_left` is total by
construction, and the remaining operations never panic.  (Inserting is
total for an arbitrary character `c`; it is the *invariant*, not
termination, that needs `c` itself to be single-byte, cf. C1.) -/
theorem C2_totality (e : Editor) (c : Char) (h : asciiInv e) :
    (move_cursor_right e).isSome ∧ (move_cursor_up e).isSome ∧
    (move_cursor_down e).isSome ∧ (insert_char e c).isSome ∧
    (delete_char e).isSome ∧ (insert_newline e).isSome := by
  obtain ⟨e1, h1, -⟩ := move_right_preserves h
  obtain ⟨e2, h2, -⟩ := move_up_preserves h
  obtain ⟨e3, h3, -⟩ := move_down_preserves h
  have h4 := insert_char_ascii e c h
  obtain ⟨e5, h5, -⟩ := delete_preserves e h
  obtain ⟨e6, h6, -⟩ := newline_preserves e h
  rw [h1, h2, h3, h4, h5, h6]
  exact ⟨rfl, rfl, rfl, rfl, rfl, rfl⟩

theorem C2_totality_witness :
    (move_cursor_right Editor.new).isSome ∧
    (move_cursor_up Editor.new).isSome ∧
    (move_cursor_down Editor.new).isSome ∧
    (insert_char Editor.new 'x').isSome ∧
    (delete_char Editor.new).isSome ∧
    (insert_newline Editor.new).isSome :=
  C2_totality Editor.new 'x' (by decide)

theorem getD_insertIdx_self {α : Type _} (l : List α) (n : Nat) (a d : α)
    (h : n ≤ l.length) : (l.insertIdx n a).getD n d = a := by
  have hlen : n < (l.insertIdx n a).length := by
    rw [List.length_insertIdx _ _ h]; omega
  rw [List.getD_eq_getElem?_getD, List.getElem?_eq_getElem hlen]
  simp [List.getElem_insertIdx_self l a n h]

theorem getD_insertIdx_of_lt {α : Type _} (l : List α) (n k : Nat) (a d : α)
    (hk : k < n) (hkl : k < l.length) :
    (l.insertIdx n a).getD k d = l.getD k d := by
  have hlen : k < (l.insertIdx n a).length := by
    have := List.length_le_length_insertIdx l a n
    omega
  rw [List.getD_eq_getElem?_getD, List.getElem?_eq_getElem hlen,
      List.getD_eq_getElem?_getD, List.getElem?_eq_getElem hkl]
  simp [List.getElem_insertIdx_of_lt l a n k hk hkl]

theorem set_getD_self {α : Type _} (l : List α) (n : Nat) (d : α)
    (h : n < l.length) : l.set n (l.getD n d) = l := by
  apply List.ext_getElem?
  intro i
  by_cases hi : n = i
  · subst hi
    rw [List.getElem?_set_self h, List.getD_eq_getElem?_getD,
        List.getElem?_eq_getElem h]
    simp
  · rw [List.getElem?_set_ne hi]

/-! ### Claim C5: the newline/backspace round trip -/

/-- C5 (counterexample): the round trip fails on the code as claimed.  The
state with the single line "éb" and cursor (1,0) satisfies the §3
invariants (column 1 ≤ display width 2), but byte offset 1 falls inside
the 2-byte character 'é', so inserting a newline panics and the
newline-then-backspace composite does not restore the original state. -/
theorem C5_counterexample :
    editorInv ({ content := [['é', 'b']], cursor_x := 1, cursor_y := 0,
                 mode := Mode.Insert, quit := false } : Editor) ∧
    (insert_newline ({ content := [['é', 'b']], cursor_x := 1, cursor_y := 0,
                       mode := Mode.Insert, quit := false } : Editor)).bind
        delete_char ≠
      some ({ content := [['é', 'b']], cursor_x := 1, cursor_y := 0,
              mode := Mode.Insert, quit := false } : Editor) :=
  ⟨by decide, by decide⟩

/-- C5 (amended): for every state satisfying the §3 invariants, in Insert
mode, whose column is a character boundary of the current line (which is
always the case for lines of single-byte characters), inserting a newline
and then immediately applying backspace from the resulting state restores
exactly the original buffer and cursor. -/
theorem C5_roundtrip (e : Editor) (h : editorInv e)
    (_hm : e.mode = Mode.Insert)
    (hb : (byteSplit (currentLine e) e.cursor_x).isSome) :
    (insert_newline e).bind delete_char = some e := by
  obtain ⟨h1, h2, h3⟩ := h
  rcases hsp : byteSplit (currentLine e) e.cursor_x with _ | ⟨a, b⟩
  · rw [hsp] at hb; simp at hb
  · obtain ⟨hab, hblen⟩ := byteSplit_append _ _ _ _ hsp
    rw [insert_newline_eq e a b h2 hsp]
    have hy1 : (e.cursor_y + 1) <
        ((e.content.set e.cursor_y a).insertIdx (e.cursor_y + 1) b).length := by
      rw [List.length_insertIdx _ _ (by rw [List.length_set]; omega),
          List.length_set]
      omega
    rw [Option.some_bind,
        delete_char_eq_join
          { e with content := (e.content.set e.cursor_y a).insertIdx
                                (e.cursor_y + 1) b,
                   cursor_x := 0, cursor_y := e.cursor_y + 1 }
          hy1 rfl (Nat.succ_pos _)]
    simp only [currentLine, Nat.add_sub_cancel] at hab ⊢
    rw [List.eraseIdx_insertIdx,
        getD_insertIdx_self _ _ _ _ (by rw [List.length_set]; omega),
        getD_insertIdx_of_lt _ _ _ _ _ (Nat.lt_succ_self _)
          (by rw [List.length_set]; exact h2),
        getD_set_self _ _ _ _ h2,
        List.set_set, hab, hblen,
        set_getD_self _ _ _ h2]

theorem C5_roundtrip_witness :
    editorInv ({ content := [['h', 'i']], cursor_x := 2, cursor_y := 0,
                 mode := Mode.Insert, quit := false } : Editor) ∧
    (byteSplit (currentLine ({ content := [['h', 'i']], cursor_x := 2,
                               cursor_y := 0, mode := Mode.Insert,
                               quit := false } : Editor)) 2).isSome ∧
    (insert_newline ({ content := [['h', 'i']], cursor_x := 2, cursor_y := 0,
                       mode := Mode.Insert, quit := false } : Editor)).bind
        delete_char =
      some ({ content := [['h', 'i']], cursor_x := 2, cursor_y := 0,
              mode := Mode.Insert, quit := false } : Editor) :=
  ⟨by decide, by decide,
    C5_roundtrip { content := [['h', 'i']], cursor_x := 2, cursor_y := 0,
                   mode := Mode.Insert, quit := false }
      (by decide) rfl (by decide)⟩

/-! ### Claim C3: the three cases of backspace -/

/-- On a buffer of single-byte width-1 lines, backspace with a positive
column erases the character at character index `cursor_x - 1`. -/
theorem delete_char_ascii_pos (e : Editor) (h : asciiInv e)
    (hx : 0 < e.cursor_x) :
    delete_char e =
      some { e with
               content := e.content.set e.cursor_y
                            ((currentLine e).eraseIdx (e.cursor_x - 1)),
               cursor_x := e.cursor_x - 1 } := by
  have hlok := currentLine_lineOK h
  have hxle := cursor_x_le_length h
  have hx1 : e.cursor_x - 1 < (currentLine e).length := by omega
  have hxx : e.cursor_x - 1 + 1 = e.cursor_x := by omega
  have hsplit : byteSplit (currentLine e) (e.cursor_x - 1) =
      some ((currentLine e).take (e.cursor_x - 1),
            (currentLine e)[e.cursor_x - 1] :: (currentLine e).drop e.cursor_x) := by
    rw [byteSplit_of_lineOK _ _ hlok (by omega), List.drop_eq_getElem_cons hx1,
        hxx]
  rw [delete_char_eq_remove e _ _ _ h.2.2.1 hx hsplit]
  rw [show (currentLine e).take (e.cursor_x - 1) ++ (currentLine e).drop e.cursor_x
        = (currentLine e).eraseIdx (e.cursor_x - 1) by
      rw [List.eraseIdx_eq_take_drop_succ, hxx]]

/-- C3 (counterexample): the claim fails on the code.  In the state with
buffer ["é", ""] and cursor (0,1), backspace joins the lines but places the
cursor at the previous line's *byte* length 2, not at its character length
1 as the claim states (2 also exceeds the display width 1 of "é"). -/
theorem C3_counterexample :
    ∃ e', delete_char ({ content := [['é'], []], cursor_x := 0, cursor_y := 1,
                         mode := Mode.Insert, quit := false } : Editor) =
        some e' ∧ e'.cursor_x ≠ (['é'] : List Char).length :=
  ⟨{ content := [['é']], cursor_x := 2, cursor_y := 0,
     mode := Mode.Insert, quit := false }, by decide, by decide⟩

/-- C3 (amended): on states satisfying the §3 invariants whose lines
consist of single-byte width-1 characters (so that character index, byte
index and display column coincide), backspace in Insert mode has exactly
the three claimed cases: erase the character before the cursor and move
one column left; else join the current line onto the previous one, the
line count dropping by exactly one and the cursor moving to the end of the
previous line's prior content; else leave the state unchanged. -/
theorem C3_backspace (e : Editor) (h : asciiInv e)
    (_hm : e.mode = Mode.Insert) :
    (0 < e.cursor_x →
      ∃ e', delete_char e = some e' ∧
        e'.content = e.content.set e.cursor_y
          ((currentLine e).eraseIdx (e.cursor_x - 1)) ∧
        e'.content.length = e.content.length ∧
        e'.cursor_x = e.cursor_x - 1 ∧ e'.cursor_y = e.cursor_y ∧
        e'.mode = e.mode ∧ e'.quit = e.quit) ∧
    (e.cursor_x = 0 → 0 < e.cursor_y →
      ∃ e', delete_char e = some e' ∧
        e'.content = (e.content.eraseIdx e.cursor_y).set (e.cursor_y - 1)
          (e.content.getD (e.cursor_y - 1) [] ++ currentLine e) ∧
        e'.content.length + 1 = e.content.length ∧
        e'.cursor_x = (e.content.getD (e.cursor_y - 1) []).length ∧
        e'.cursor_y = e.cursor_y - 1 ∧
        e'.mode = e.mode ∧ e'.quit = e.quit) ∧
    (e.cursor_x = 0 → e.cursor_y = 0 → delete_char e = some e) := by
  obtain ⟨hok, h1, h2, h3⟩ := h
  refine ⟨?_, ?_, ?_⟩
  · intro hx
    refine ⟨_, delete_char_ascii_pos e ⟨hok, h1, h2, h3⟩ hx, rfl, ?_, rfl, rfl,
      rfl, rfl⟩
    show (e.content.set e.cursor_y _).length = e.content.length
    rw [List.length_set]
  · intro hx hy
    refine ⟨_, delete_char_eq_join e h2 hx hy, rfl, ?_, ?_, rfl, rfl, rfl⟩
    · show ((e.content.eraseIdx e.cursor_y).set (e.cursor_y - 1) _).length + 1
        = e.content.length
      rw [List.length_set, List.length_eraseIdx_of_lt h2]
      omega
    · show byteLen (e.content.getD (e.cursor_y - 1) [])
        = (e.content.getD (e.cursor_y - 1) []).length
      have hylt : e.cursor_y - 1 < e.content.length := by omega
      have hprevOK : lineOK (e.content.getD (e.cursor_y - 1) []) := by
        have hp : e.content.getD (e.cursor_y - 1) [] = e.content[e.cursor_y - 1] := by
          simp [List.getD_eq_getElem?_getD, List.getElem?_eq_getElem hylt]
        rw [hp]
        exact hok _ (List.getElem_mem hylt)
      exact byteLen_eq_length hprevOK
  · intro hx hy
    exact delete_char_eq_origin e h2 hx hy

theorem C3_backspace_witness :
    asciiInv ({ content := [['h', 'i']], cursor_x := 2, cursor_y := 0,
                mode := Mode.Insert, quit := false } : Editor) ∧
    ∃ e', delete_char ({ content := [['h', 'i']], cursor_x := 2, cursor_y := 0,
                         mode := Mode.Insert, quit := false } : Editor) =
        some e' ∧
      e'.content = [['h', 'i']].set 0 ((['h', 'i'] : List Char).eraseIdx 1) ∧
      e'.content.length = ([[('h' : Char), 'i']] : List (List Char)).length ∧
      e'.cursor_x = 1 ∧ e'.cursor_y = 0 ∧
      e'.mode = Mode.Insert ∧ e'.quit = false :=
  ⟨by decide,
    (C3_backspace { content := [['h', 'i']], cursor_x := 2, cursor_y := 0,
                    mode := Mode.Insert, quit := false }
      (by decide) rfl).1 (by decide)⟩

/-! ### Claim C4: inserting a newline -/

/-- C4 (counterexample): the claim fails on the code.  In the state with
the single line "éb" and cursor (2,0) — valid, since the display width of
"éb" is 2 — pressing Enter splits at *byte* offset 2, which falls after
the 2-byte character 'é', producing ["é","b"]; splitting the character
sequence at character position 2, as the claim states, would produce
["éb",""]. -/
theorem C4_counterexample :
    ∃ e', insert_newline ({ content := [['é', 'b']], cursor_x := 2,
                            cursor_y := 0, mode := Mode.Insert,
                            quit := false } : Editor) = some e' ∧
      e'.content ≠ [(['é', 'b'] : List Char).take 2,
                    (['é', 'b'] : List Char).drop 2] :=
  ⟨{ content := [['é'], ['b']], cursor_x := 0, cursor_y := 1,
     mode := Mode.Insert, quit := false }, by decide, by decide⟩

/-- C4 (amended): on states satisfying the §3 invariants whose lines
consist of single-byte width-1 characters (so that byte offsets coincide
with character positions), Enter in Insert mode splits the current line's
character sequence at `cursor_x` into before/after, the current row
becomes the before-part, the after-part is inserted as a new line
immediately below, the line count grows by exactly one, and the cursor
moves to the start of the new line; the resulting buffer is exactly the
old one with this one row replaced and one row inserted, so all other
lines are unchanged. -/
theorem C4_newline (e : Editor) (h : asciiInv e)
    (_hm : e.mode = Mode.Insert) :
    ∃ e', insert_newline e = some e' ∧
      e'.content = (e.content.set e.cursor_y
          ((currentLine e).take e.cursor_x)).insertIdx (e.cursor_y + 1)
          ((currentLine e).drop e.cursor_x) ∧
      e'.content.length = e.content.length + 1 ∧
      e'.cursor_x = 0 ∧ e'.cursor_y = e.cursor_y + 1 ∧
      e'.mode = e.mode ∧ e'.quit = e.quit := by
  have hlok := currentLine_lineOK h
  have hx := cursor_x_le_length h
  have h2 : e.cursor_y < e.content.length := h.2.2.1
  refine ⟨_, insert_newline_eq e _ _ h2
    (byteSplit_of_lineOK _ _ hlok hx), rfl, ?_, rfl, rfl, rfl, rfl⟩
  show ((e.content.set e.cursor_y _).insertIdx (e.cursor_y + 1) _).length
    = e.content.length + 1
  rw [List.length_insertIdx _ _ (by rw [List.length_set]; omega),
      List.length_set]

theorem C4_newline_witness :
    asciiInv ({ content := [['h', 'i']], cursor_x := 2, cursor_y := 0,
                mode := Mode.Insert, quit := false } : Editor) ∧
    (∃ e', insert_newline ({ content := [['h', 'i']], cursor_x := 2,
                             cursor_y := 0, mode := Mode.Insert,
                             quit := false } : Editor) = some e' ∧
      e'.content = ([[('h' : Char), 'i']].set 0 ((['h', 'i'] : List Char).take 2)).insertIdx 1
        ((['h', 'i'] : List Char).drop 2) ∧
      e'.content.length = ([[('h' : Char), 'i']] : List (List Char)).length + 1 ∧
      e'.cursor_x = 0 ∧ e'.cursor_y = 1 ∧
      e'.mode = Mode.Insert ∧ e'.quit = false) ∧
    insert_newline ({ content := [['h', 'i']], cursor_x := 2, cursor_y := 0,
                      mode := Mode.Insert, quit := false } : Editor) =
      some { content := [['h', 'i'], []], cursor_x := 0, cursor_y := 1,
             mode := Mode.Insert, quit := false } :=
  ⟨by decide,
    C4_newline { content := [['h', 'i']], cursor_x := 2, cursor_y := 0,
                 mode := Mode.Insert, quit := false } (by decide) rfl,
    by decide⟩

/-! ### Claim C6: inserting a character -/

theorem insertIdx_eq_take_cons_drop {α : Type _} :
    ∀ (n : Nat) (l : List α) (a : α), n ≤ l.length →
      l.insertIdx n a = l.take n ++ a :: l.drop n
  | 0, l, a, _ => by simp [List.insertIdx_zero]
  | n + 1, [], a, h => by simp at h
  | n + 1, c :: cs, a, h => by
    rw [List.insertIdx_succ_cons]
    simp [insertIdx_eq_take_cons_drop n cs a (by simpa using h)]

/-- C6 (counterexample): the claim fails on the code.  In the state with
the single line "éb" and cursor (2,0) — valid, since the display width of
"éb" is 2 — inserting 'x' splits at *byte* offset 2, i.e. between 'é' and
'b', producing "éxb"; insertion at character index 2, as the claim states,
would produce "ébx". -/
theorem C6_counterexample :
    ∃ e', insert_char ({ content := [['é', 'b']], cursor_x := 2,
                         cursor_y := 0, mode := Mode.Insert,
                         quit := false } : Editor) 'x' = some e' ∧
      e'.content ≠ [(['é', 'b'] : List Char).insertIdx 2 'x'] :=
  ⟨{ content := [['é', 'x', 'b']], cursor_x := 3, cursor_y := 0,
     mode := Mode.Insert, quit := false }, by decide, by decide⟩

/-- C6 (amended): on states satisfying the §3 invariants whose lines
consist of single-byte width-1 characters (so that byte offsets coincide
with character indices), inserting `c` in Insert mode places `c` at
character index `cursor_x` of the current line, increments the column by
one, grows that line by exactly one character, and changes no other line
and no other field; in particular, from the initial state, pressing 'i'
and then typing "hi" yields the buffer ["hi"] with cursor (2,0). -/
theorem C6_insert (e : Editor) (c : Char) (h : asciiInv e)
    (_hm : e.mode = Mode.Insert) :
    (∃ e', insert_char e c = some e' ∧
      e'.content = e.content.set e.cursor_y
        ((currentLine e).insertIdx e.cursor_x c) ∧
      currentLine e' = (currentLine e).insertIdx e.cursor_x c ∧
      (currentLine e').length = (currentLine e).length + 1 ∧
      e'.cursor_x = e.cursor_x + 1 ∧ e'.cursor_y = e.cursor_y ∧
      e'.mode = e.mode ∧ e'.quit = e.quit) ∧
    run Editor.new [KeyCode.char 'i', KeyCode.char 'h', KeyCode.char 'i'] =
      some { content := [['h', 'i']], cursor_x := 2, cursor_y := 0,
             mode := Mode.Insert, quit := false } := by
  refine ⟨?_, by decide⟩
  have hlok := currentLine_lineOK h
  have hx := cursor_x_le_length h
  have h2 : e.cursor_y < e.content.length := h.2.2.1
  have htd : (currentLine e).take e.cursor_x ++ c :: (currentLine e).drop e.cursor_x
      = (currentLine e).insertIdx e.cursor_x c :=
    (insertIdx_eq_take_cons_drop _ _ _ hx).symm
  refine ⟨_, insert_char_ascii e c h, ?_, ?_, ?_, rfl, rfl, rfl, rfl⟩
  · show e.content.set e.cursor_y _ = _
    rw [htd]
  · show (e.content.set e.cursor_y _).getD e.cursor_y [] = _
    rw [getD_set_self _ _ _ _ h2, htd]
  · show ((e.content.set e.cursor_y _).getD e.cursor_y []).length = _
    rw [getD_set_self _ _ _ _ h2]
    simp only [List.length_append, List.length_take, List.length_cons,
      List.length_drop]
    omega

theorem C6_insert_witness :
    asciiInv ({ content := [['h']], cursor_x := 1, cursor_y := 0,
                mode := Mode.Insert, quit := false } : Editor) ∧
    (∃ e', insert_char ({ content := [['h']], cursor_x := 1, cursor_y := 0,
                          mode := Mode.Insert, quit := false } : Editor) 'i' =
        some e' ∧
      e'.content = [[('h' : Char)]].set 0 ((['h'] : List Char).insertIdx 1 'i') ∧
      currentLine e' = (['h'] : List Char).insertIdx 1 'i' ∧
      (currentLine e').length = (['h'] : List Char).length + 1 ∧
      e'.cursor_x = 2 ∧ e'.cursor_y = 0 ∧
      e'.mode = Mode.Insert ∧ e'.quit = false) :=
  ⟨by decide,
    (C6_insert { content := [['h']], cursor_x := 1, cursor_y := 0,
                 mode := Mode.Insert, quit := false } 'i' (by decide) rfl).1⟩

/-! ### Claim C7: vertical movement clamps -/

/-- C7: vertical movement clamps and never wraps or fails.  Moving up from
row 0 and moving down from the last row are no-ops; otherwise the row
moves by one and the column is clamped to `min column (display width)` of
the new current line.  The concrete conjunct is Scenario D: from
["ab","c"] with cursor (2,0), moving down clamps to (1,1). -/
theorem C7_vertical (e : Editor) (h : e.cursor_y < e.content.length) :
    move_cursor_up e =
      some (if e.cursor_y = 0 then e
            else { e with cursor_y := e.cursor_y - 1,
                          cursor_x := min e.cursor_x
                            (lineWidth (e.content.getD (e.cursor_y - 1) [])) }) ∧
    move_cursor_down e =
      some (if e.cursor_y + 1 < e.content.length then
              { e with cursor_y := e.cursor_y + 1,
                       cursor_x := min e.cursor_x
                         (lineWidth (e.content.getD (e.cursor_y + 1) [])) }
            else e) ∧
    move_cursor_down ({ content := [['a', 'b'], ['c']], cursor_x := 2,
                        cursor_y := 0, mode := Mode.Normal,
                        quit := false } : Editor) =
      some ({ content := [['a', 'b'], ['c']], cursor_x := 1, cursor_y := 1,
              mode := Mode.Normal, quit := false } : Editor) := by
  refine ⟨?_, ?_, by decide⟩
  · rw [move_cursor_up_eq e h]
    by_cases hy : e.cursor_y = 0
    · rw [if_pos hy, if_pos hy]
    · rw [if_neg hy, if_neg hy,
          show (if e.cursor_x > lineWidth (e.content.getD (e.cursor_y - 1) [])
                then lineWidth (e.content.getD (e.cursor_y - 1) [])
                else e.cursor_x) =
              min e.cursor_x (lineWidth (e.content.getD (e.cursor_y - 1) []))
            by split <;> omega]
  · rw [move_cursor_down_eq e]
    by_cases hy : e.cursor_y + 1 < e.content.length
    · rw [if_pos (show e.cursor_y < e.content.length - 1 by omega), if_pos hy,
          show (if e.cursor_x > lineWidth (e.content.getD (e.cursor_y + 1) [])
                then lineWidth (e.content.getD (e.cursor_y + 1) [])
                else e.cursor_x) =
              min e.cursor_x (lineWidth (e.content.getD (e.cursor_y + 1) []))
            by split <;> omega]
    · rw [if_neg (show ¬ e.cursor_y < e.content.length - 1 by omega),
          if_neg hy]

theorem C7_vertical_witness :
    (({ content := [['a', 'b'], ['c']], cursor_x := 2, cursor_y := 0,
        mode := Mode.Normal, quit := false } : Editor).cursor_y <
      ({ content := [['a', 'b'], ['c']], cursor_x := 2, cursor_y := 0,
         mode := Mode.Normal, quit := false } : Editor).content.length) ∧
    move_cursor_down ({ content := [['a', 'b'], ['c']], cursor_x := 2,
                        cursor_y := 0, mode := Mode.Normal,
                        quit := false } : Editor) =
      some ({ content := [['a', 'b'], ['c']], cursor_x := 1, cursor_y := 1,
              mode := Mode.Normal, quit := false } : Editor) :=
  ⟨by decide,
    (C7_vertical { content := [['a', 'b'], ['c']], cursor_x := 2,
                   cursor_y := 0, mode := Mode.Normal, quit := false }
        (by decide)).2.2⟩

/-! ### Claim C8: horizontal movement is bounded and boundary-idempotent -/

/-- C8: moving left decrements the column when it is positive and is an
exact no-op at column 0 (no wrap to the previous line); moving right
increments the column below the display width of the current line and is
an exact no-op at the width (no wrap to the next line); repeating either
move at its boundary still leaves the state unchanged. -/
theorem C8_horizontal (e : Editor) (h : e.cursor_y < e.content.length) :
    (0 < e.cursor_x →
      move_cursor_left e = { e with cursor_x := e.cursor_x - 1 }) ∧
    (e.cursor_x = 0 → move_cursor_left e = e) ∧
    (e.cursor_x < lineWidth (currentLine e) →
      move_cursor_right e = some { e with cursor_x := e.cursor_x + 1 }) ∧
    (e.cursor_x = lineWidth (currentLine e) →
      move_cursor_right e = some e) ∧
    (e.cursor_x = 0 → move_cursor_left (move_cursor_left e) = e) ∧
    (e.cursor_x = lineWidth (currentLine e) →
      (move_cursor_right e).bind move_cursor_right = some e) := by
  have hleft0 : e.cursor_x = 0 → move_cursor_left e = e := by
    intro hx
    unfold move_cursor_left
    rw [if_neg (by omega)]
  have hright0 : e.cursor_x = lineWidth (currentLine e) →
      move_cursor_right e = some e := by
    intro hx
    rw [move_cursor_right_eq e h, if_neg (by omega)]
  refine ⟨?_, hleft0, ?_, hright0, ?_, ?_⟩
  · intro hx
    unfold move_cursor_left
    rw [if_pos hx]
  · intro hx
    rw [move_cursor_right_eq e h, if_pos hx]
  · intro hx
    rw [hleft0 hx, hleft0 hx]
  · intro hx
    rw [hright0 hx, Option.some_bind, hright0 hx]

theorem C8_horizontal_witness :
    (({ content := [['a', 'b']], cursor_x := 0, cursor_y := 0,
        mode := Mode.Normal, quit := false } : Editor).cursor_y <
      ({ content := [['a', 'b']], cursor_x := 0, cursor_y := 0,
         mode := Mode.Normal, quit := false } : Editor).content.length) ∧
    move_cursor_left ({ content := [['a', 'b']], cursor_x := 0,
                        cursor_y := 0, mode := Mode.Normal,
                        quit := false } : Editor) =
      ({ content := [['a', 'b']], cursor_x := 0, cursor_y := 0,
         mode := Mode.Normal, quit := false } : Editor) :=
  ⟨by decide,
    (C8_horizontal { content := [['a', 'b']], cursor_x := 0, cursor_y := 0,
                     mode := Mode.Normal, quit := false }
        (by decide)).2.1 rfl⟩

/-! ### Claim C9: termination is reachable only from Normal mode -/

/-- C9 (counterexample): the claim fails on the code as stated.  In the
§3-valid Insert-mode state with the single line "é" and cursor (1,0),
pressing 'q' neither terminates nor inserts the literal 'q': the insertion
panics, because byte offset 1 falls inside the 2-byte character 'é'. -/
theorem C9_counterexample :
    editorInv ({ content := [['é']], cursor_x := 1, cursor_y := 0,
                 mode := Mode.Insert, quit := false } : Editor) ∧
    process_keypress ({ content := [['é']], cursor_x := 1, cursor_y := 0,
                        mode := Mode.Insert, quit := false } : Editor)
        (KeyCode.char 'q') = none :=
  ⟨by decide, by decide⟩

/-- C9 (amended): 'q' pressed in Normal mode sets the termination flag; no
other key event in any mode sets it; 'q' pressed in Insert mode is routed
to character insertion, and on states whose lines consist of single-byte
width-1 characters it inserts the literal character 'q' without touching
the termination flag (on other valid states the insertion may panic
instead, cf. C2). -/
theorem C9_quit (e e' : Editor) (k : KeyCode) :
    (e.mode = Mode.Normal →
      process_keypress e (KeyCode.char 'q') = some { e with quit := true }) ∧
    (process_keypress e k = some e' → e'.quit = true →
      e.quit = true ∨ (e.mode = Mode.Normal ∧ k = KeyCode.char 'q')) ∧
    (e.mode = Mode.Insert →
      process_keypress e (KeyCode.char 'q') = insert_char e 'q') ∧
    (e.mode = Mode.Insert → asciiInv e →
      process_keypress e (KeyCode.char 'q') =
        some { e with content := e.content.set e.cursor_y
                        ((currentLine e).insertIdx e.cursor_x 'q'),
                      cursor_x := e.cursor_x + 1 }) := by
  refine ⟨?_, fun hp hq => process_quit hp hq, ?_, ?_⟩
  · intro hm
    unfold process_keypress
    rw [hm]
    show handle_normal_mode e (KeyCode.char 'q') = _
    simp [handle_normal_mode]
    exact hm
  · intro hm
    unfold process_keypress
    rw [hm]
    rfl
  · intro hm h
    unfold process_keypress
    rw [hm]
    show insert_char e 'q' = _
    rw [insert_char_ascii e 'q' h,
        insertIdx_eq_take_cons_drop _ _ _ (cursor_x_le_length h), hm]

theorem C9_quit_witness :
    process_keypress Editor.new (KeyCode.char 'q') =
      some { Editor.new with quit := true } :=
  (C9_quit Editor.new Editor.new KeyCode.esc).1 rfl

/-! ### Claim C10: frame conditions -/

/-- C10: the mode transitions ('i' in Normal mode, escape in Insert mode)
change only the mode, and each cursor move changes only the cursor,
leaving buffer, mode and termination flag unchanged; the horizontal moves
also leave the row unchanged. -/
theorem C10_frame (e : Editor) (h : e.cursor_y < e.content.length) :
    (e.mode = Mode.Normal →
      process_keypress e (KeyCode.char 'i') =
        some { e with mode := Mode.Insert }) ∧
    (e.mode = Mode.Insert →
      process_keypress e KeyCode.esc = some { e with mode := Mode.Normal }) ∧
    ((move_cursor_left e).content = e.content ∧
     (move_cursor_left e).cursor_y = e.cursor_y ∧
     (move_cursor_left e).mode = e.mode ∧
     (move_cursor_left e).quit = e.quit) ∧
    (∃ e', move_cursor_right e = some e' ∧ e'.content = e.content ∧
      e'.cursor_y = e.cursor_y ∧ e'.mode = e.mode ∧ e'.quit = e.quit) ∧
    (∃ e', move_cursor_up e = some e' ∧ e'.content = e.content ∧
      e'.mode = e.mode ∧ e'.quit = e.quit) ∧
    (∃ e', move_cursor_down e = some e' ∧ e'.content = e.content ∧
      e'.mode = e.mode ∧ e'.quit = e.quit) := by
  refine ⟨?_, ?_, ?_, ?_, ?_, ?_⟩
  · intro hm
    unfold process_keypress
    rw [hm]
    show handle_normal_mode e (KeyCode.char 'i') = _
    simp [handle_normal_mode]
  · intro hm
    unfold process_keypress
    rw [hm]
    rfl
  · unfold move_cursor_left
    split <;> exact ⟨rfl, rfl, rfl, rfl⟩
  · refine ⟨_, move_cursor_right_eq e h, ?_⟩
    split <;> exact ⟨rfl, rfl, rfl, rfl⟩
  · refine ⟨_, move_cursor_up_eq e h, ?_⟩
    split <;> exact ⟨rfl, rfl, rfl⟩
  · refine ⟨_, move_cursor_down_eq e, ?_⟩
    split <;> exact ⟨rfl, rfl, rfl⟩

theorem C10_frame_witness :
    (Editor.new.cursor_y < Editor.new.content.length) ∧
    process_keypress Editor.new (KeyCode.char 'i') =
      some { Editor.new with mode := Mode.Insert } :=
  ⟨by decide, (C10_frame Editor.new (by decide)).1 rfl⟩

end TextEditor
